import Mathlib

/-!
# Verification of the secure-PII ingestion pipeline

Shallow embedding of `src/notebooks/01_autoloader_encrypt_pii.py`:
the Fernet-based field protection (`encrypt_value`, `decrypt_value`),
the column-level policy transform (`apply_pii_policy` over
`ENCRYPT_COLUMNS` / `HASH_COLUMNS` / `DROP_COLUMNS`), the SQL views
`v_customers_clear` and `v_customers_masked` (with Spark SQL semantics
of `concat`, `substr` and `sha2`), and the exactly-once ingestion
protocol of the Auto Loader stream.

Strings are modelled as lists of characters; machine-level byte strings
as lists of naturals.
-/

/-- A character string (Python `str` / Spark string column value). -/
abbrev Str := List Char

/-! ## Fernet tokens

Modelled from the spec: the `cryptography.fernet` library is external to
the repository; the spec describes its contract — an authenticated
ciphertext token (`version ‖ timestamp ‖ IV ‖ ciphertext ‖ HMAC`) that
round-trips to the exact original string under the same key and fails
with an authentication error under any other key or after tampering.
We model it symbolically: the ciphertext body is represented by the
key/nonce/plaintext that determine it, and the HMAC tag by the key that
signed the token.  The Fernet version byte is the constant `0x80 = 128`
(a token-format version, not a key version). -/
structure FernetToken where
  /-- Token-format version byte; always `0x80` for Fernet. -/
  version : Nat
  /-- Timestamp field of the token header. -/
  timestamp : Nat
  /-- The random IV generated for this call. -/
  nonce : Nat
  /-- Symbolic ciphertext, part one: the key the body was encrypted under. -/
  encKey : Nat
  /-- and the plaintext it decrypts to under that key. -/
  plainData : Str
  /-- Symbolic HMAC tag: the key that authenticated the token. -/
  tagKey : Nat
deriving DecidableEq, Repr

/-- Fernet `encrypt(data)`: build a fresh token under `key` with the
current timestamp and a random IV (both passed explicitly here). -/
def fernetEncrypt (key ts nonce : Nat) (data : Str) : FernetToken :=
  { version := 128, timestamp := ts, nonce := nonce,
    encKey := key, plainData := data, tagKey := key }

/-- Fernet `decrypt(token)`: verify the HMAC and the version byte,
then decrypt; `none` models the `InvalidToken` exception. -/
def fernetDecrypt (key : Nat) (t : FernetToken) : Option Str :=
  if t.version = 128 ∧ t.tagKey = key ∧ t.encKey = key then
    some t.plainData
  else
    none

/-- The base64 text rendering of a token (`token.decode("utf-8")` in the
source).  Any injective rendering of the token's fields serves the
embedding; we spell the fields out in decimal. -/
def tokenText (t : FernetToken) : Str :=
  '#' :: Nat.toDigits 10 t.version ++ '.' :: Nat.toDigits 10 t.timestamp
    ++ '.' :: Nat.toDigits 10 t.nonce ++ '.' :: t.plainData

/-! ## Column values -/

/-- One cell of a Spark column: `null`, a plain string, a number, or the
base64 text of a Fernet token (a string whose content happens to be a
token; kept as a separate constructor so decryption can be modelled). -/
inductive PValue where
  | null
  | s (cs : Str)
  | int (n : Int)
  | tok (t : FernetToken)
deriving DecidableEq, Repr

/-- Spark SQL `CAST(v AS STRING)`: `NULL ↦ NULL`, strings unchanged,
integers rendered in decimal. -/
def renderString : PValue → Option Str
  | .null => none
  | .s cs => some cs
  | .int n =>
      some (if n < 0 then '-' :: Nat.toDigits 10 n.natAbs
            else Nat.toDigits 10 n.natAbs)
  | .tok t => some (tokenText t)

/-! ## `encrypt_value` / `decrypt_value` (source lines 114–165) -/

/-- Source `encrypt_value(value)`: `None ↦ None`; otherwise UTF-8 encode,
`FERNET.encrypt`, and return the token text (source lines 114–120).
The key, timestamp and IV consumed by the library are explicit
parameters of the embedding. -/
def encrypt_value (key ts nonce : Nat) : Option Str → Option PValue
  | none => none
  | some v => some (.tok (fernetEncrypt key ts nonce v))

/-- The error raised by `FERNET.decrypt` on a corrupt, tampered or
malformed token (`cryptography.fernet.InvalidToken`); the spec calls it
`DecryptionFailed`. -/
inductive DecryptError where
  | decryptionFailed
deriving DecidableEq, Repr

/-- Helper `_decrypt_one(value)` inside the `decrypt_value` pandas UDF
(source lines 154–159): `None ↦ None`; otherwise encode the stored
string and `FERNET.decrypt` it.  A string that is not a well-formed
token, or whose tag does not verify, raises — modelled as
`Except.error`; there is no `try`/`except` in the source. -/
def decrypt_one (key : Nat) : PValue → Except DecryptError (Option Str)
  | .null => .ok none
  | .tok t =>
      match fernetDecrypt key t with
      | some data => .ok (some data)
      | none => .error .decryptionFailed
  | .s _ => .error .decryptionFailed
  | .int _ => .error .decryptionFailed

/-- Source `decrypt_value(col_series)` (lines 151–161):
`col_series.apply(_decrypt_one)` — the first exception raised by
`_decrypt_one` propagates and aborts the whole batch. -/
def decrypt_value (key : Nat) (series : List PValue) :
    Except DecryptError (List (Option Str)) :=
  series.mapM (decrypt_one key)

/-! ## UTF-8 encoding (`value.encode("utf-8")`) -/

/-- UTF-8 encoding of one code point. -/
def utf8EncodeChar (c : Char) : List Nat :=
  let n := c.toNat
  if n < 128 then [n]
  else if n < 2048 then [192 + n / 64, 128 + n % 64]
  else if n < 65536 then
    [224 + n / 4096, 128 + n / 64 % 64, 128 + n % 64]
  else
    [240 + n / 262144, 128 + n / 4096 % 64, 128 + n / 64 % 64, 128 + n % 64]

/-- UTF-8 encoding of a string as a byte sequence. -/
def utf8Encode (cs : Str) : List Nat :=
  cs.foldr (fun c acc => utf8EncodeChar c ++ acc) []

/-! ## SHA-256 (the Spark `sha2(e, 256)` builtin)

Spark's `sha2` computes the standard FIPS 180-4 SHA-256 digest of the
UTF-8 bytes of its string argument and renders it as lowercase hex. -/

/-- Reduction modulo `2^32`; all SHA-256 word arithmetic lives here. -/
def w32 (n : Nat) : Nat := n % 4294967296

/-- Rotate a 32-bit word right by `k` bits. -/
def rotr32 (k x : Nat) : Nat := w32 ((x >>> k) ||| (x <<< (32 - k)))

/-- The SHA-256 choice function `Ch(x,y,z)`. -/
def shaCh (x y z : Nat) : Nat := (x &&& y) ^^^ ((w32 x ^^^ 4294967295) &&& z)

/-- The SHA-256 majority function `Maj(x,y,z)`. -/
def shaMaj (x y z : Nat) : Nat := (x &&& y) ^^^ (x &&& z) ^^^ (y &&& z)

/-- The SHA-256 compression function `Σ₀`. -/
def bigSigma0 (x : Nat) : Nat := rotr32 2 x ^^^ rotr32 13 x ^^^ rotr32 22 x

/-- The SHA-256 compression function `Σ₁`. -/
def bigSigma1 (x : Nat) : Nat := rotr32 6 x ^^^ rotr32 11 x ^^^ rotr32 25 x

/-- The SHA-256 schedule function `σ₀`. -/
def smallSigma0 (x : Nat) : Nat := rotr32 7 x ^^^ rotr32 18 x ^^^ (x >>> 3)

/-- The SHA-256 schedule function `σ₁`. -/
def smallSigma1 (x : Nat) : Nat := rotr32 17 x ^^^ rotr32 19 x ^^^ (x >>> 10)

/-- The 64 SHA-256 round constants (FIPS 180-4, written in decimal). -/
def shaK : List Nat :=
  [1116352408, 1899447441, 3049323471, 3921009573, 961987163,
   1508970993, 2453635748, 2870763221, 3624381080, 310598401,
   607225278, 1426881987, 1925078388, 2162078206, 2614888103,
   3248222580, 3835390401, 4022224774, 264347078, 604807628,
   770255983, 1249150122, 1555081692, 1996064986, 2554220882,
   2821834349, 2952996808, 3210313671, 3336571891, 3584528711,
   113926993, 338241895, 666307205, 773529912, 1294757372,
   1396182291, 1695183700, 1986661051, 2177026350, 2456956037,
   2730485921, 2820302411, 3259730800, 3345764771, 3516065817,
   3600352804, 4094571909, 275423344, 430227734, 506948616,
   659060556, 883997877, 958139571, 1322822218, 1537002063,
   1747873779, 1955562222, 2024104815, 2227730452, 2361852424,
   2428436474, 2756734187, 3204031479, 3329325298]

/-- Big-endian byte rendering of `n` on `k` bytes. -/
def beBytes : Nat → Nat → List Nat
  | 0, _ => []
  | k + 1, n => (n >>> (8 * k)) % 256 :: beBytes k n

/-- SHA-256 message padding: append `0x80`, zero bytes up to 56 mod 64,
and the 64-bit big-endian bit length. -/
def sha256Pad (msg : List Nat) : List Nat :=
  msg ++ 128 :: List.replicate ((119 - msg.length % 64) % 64) 0
    ++ beBytes 8 (8 * msg.length)

/-- Split a byte sequence into 64-byte blocks. -/
def chunks64 : List Nat → List (List Nat)
  | [] => []
  | b :: rest => (b :: rest).take 64 :: chunks64 ((b :: rest).drop 64)
termination_by l => l.length
decreasing_by simp; omega

/-- Assemble big-endian 32-bit words from bytes. -/
def bytesToWords : List Nat → List Nat
  | a :: b :: c :: d :: rest =>
      (((a * 256 + b) * 256 + c) * 256 + d) :: bytesToWords rest
  | _ => []

/-- One step of the SHA-256 message-schedule extension: append
`σ₁(W[t-2]) + W[t-7] + σ₀(W[t-15]) + W[t-16]`. -/
def shaExtendStep (w : List Nat) : List Nat :=
  w ++ [w32 (smallSigma1 (w.getD (w.length - 2) 0) + w.getD (w.length - 7) 0
    + smallSigma0 (w.getD (w.length - 15) 0) + w.getD (w.length - 16) 0)]

/-- The full 64-word message schedule from the 16 words of a block. -/
def shaSchedule (w16 : List Nat) : List Nat := shaExtendStep^[48] w16

/-- The eight working registers of the SHA-256 compression loop. -/
structure ShaState where
  a : Nat
  b : Nat
  c : Nat
  d : Nat
  e : Nat
  f : Nat
  g : Nat
  h : Nat
deriving DecidableEq, Repr

/-- One round of the SHA-256 compression loop. -/
def shaRound (st : ShaState) (k w : Nat) : ShaState :=
  let t1 := w32 (st.h + bigSigma1 st.e + shaCh st.e st.f st.g + k + w)
  let t2 := w32 (bigSigma0 st.a + shaMaj st.a st.b st.c)
  ⟨w32 (t1 + t2), st.a, st.b, st.c, w32 (st.d + t1), st.e, st.f, st.g⟩

/-- Compress one 64-byte block into the running state. -/
def shaCompressBlock (st : ShaState) (block : List Nat) : ShaState :=
  let ws := shaSchedule (bytesToWords block)
  let r := (shaK.zip ws).foldl (fun s p => shaRound s p.1 p.2) st
  ⟨w32 (st.a + r.a), w32 (st.b + r.b), w32 (st.c + r.c), w32 (st.d + r.d),
   w32 (st.e + r.e), w32 (st.f + r.f), w32 (st.g + r.g), w32 (st.h + r.h)⟩

/-- The SHA-256 initial hash value (FIPS 180-4, written in decimal). -/
def shaInit : ShaState :=
  ⟨1779033703, 3144134277, 1013904242,
   2773480762, 1359893119, 2600822924,
   528734635, 1541459225⟩

/-- Big-endian bytes of one 32-bit word. -/
def word32Bytes (n : Nat) : List Nat :=
  [(n >>> 24) % 256, (n >>> 16) % 256, (n >>> 8) % 256, n % 256]

/-- SHA-256 of a byte sequence, as its 32 digest bytes. -/
def sha256 (msg : List Nat) : List Nat :=
  let st := (chunks64 (sha256Pad msg)).foldl shaCompressBlock shaInit
  word32Bytes st.a ++ word32Bytes st.b ++ word32Bytes st.c ++ word32Bytes st.d
    ++ word32Bytes st.e ++ word32Bytes st.f ++ word32Bytes st.g
    ++ word32Bytes st.h

/-- The sixteen lowercase hex digits, as `Nat.digitChar` emits them
for `0`–`15`. -/
def hexDigitsTable : Str := (List.range 16).map Nat.digitChar

/-- Lowercase hex digit of `n mod 16`. -/
def hexChar (n : Nat) : Char := hexDigitsTable.getD (n % 16) '0'

/-- Two-character lowercase hex rendering of a byte. -/
def byteHex (b : Nat) : Str := [hexChar (b / 16), hexChar b]

/-- Lowercase hex rendering of a byte sequence. -/
def bytesHex (bs : List Nat) : Str :=
  bs.foldr (fun b acc => byteHex b ++ acc) []

/-- Spark SQL `sha2(CAST(v AS STRING), 256)`: `NULL ↦ NULL`; otherwise
the lowercase-hex SHA-256 digest of the UTF-8 bytes of the string
rendering (source lines 136–141). -/
def sha2_string (v : PValue) : PValue :=
  match renderString v with
  | none => .null
  | some cs => .s (bytesHex (sha256 (utf8Encode cs)))

/-! ## Spark SQL string functions used by the views -/

/-- Spark SQL `concat`: `NULL` if any argument is `NULL`, otherwise the
concatenation. -/
def sparkConcat (xs : List (Option Str)) : Option Str :=
  xs.foldr (fun x acc =>
    match x, acc with
    | some v, some rest => some (v ++ rest)
    | _, _ => none) (some [])

/-- Spark SQL `substring(str, pos, len)` at character level, following
`UTF8String.substringSQL`: one-based positions, a negative `pos` counts
from the end, and the extracted range is clamped to the string. -/
def substringSQL (cs : Str) (pos len : Int) : Str :=
  let n : Int := cs.length
  let start : Int := if pos > 0 then pos - 1 else if pos < 0 then n + pos else 0
  let stop : Int := start + len
  if stop ≤ start ∨ n ≤ start then []
  else (cs.take stop.toNat).drop start.toNat

/-- Spark SQL `substr` lifted to nullable strings (`NULL ↦ NULL`). -/
def sparkSubstr (v : Option Str) (pos len : Int) : Option Str :=
  v.map (fun cs => substringSQL cs pos len)

/-! ## The PII policy (source lines 109–148) -/

/-- Columns to encrypt (source line 109). -/
def ENCRYPT_COLUMNS : List String := ["full_name", "email", "phone"]

/-- Columns to hash (source line 110). -/
def HASH_COLUMNS : List String := ["national_id"]

/-- Columns to drop (source line 111). -/
def DROP_COLUMNS : List String := []

/-- One record of a DataFrame: ordered (column name, value) pairs. -/
abbrev Row := List (String × PValue)

/-- Ordered column names of a record (`df.columns`). -/
def columnsOf (r : Row) : List String := r.map Prod.fst

/-- Spark `df.withColumn(name, f(col(name)))` for an existing column:
replaces that column's value in place, keeping the column order. -/
def withColumn (r : Row) (name : String) (f : PValue → PValue) : Row :=
  r.map (fun p => if p.1 = name then (p.1, f p.2) else p)

/-- The `encrypt_udf` cell function: what the Spark UDF wrapping
`encrypt_value` does to one cell of a string column (source line 123).
A numeric cell would raise inside the Python UDF; it is never reached,
since the UDF is only applied to string columns, and is modelled as
identity. -/
def encrypt_udf (key ts nonce : Nat) : PValue → PValue
  | .null => .null
  | .s cs => ((encrypt_value key ts nonce) (some cs)).getD .null
  | .tok t => ((encrypt_value key ts nonce) (some (tokenText t))).getD .null
  | .int n => .int n

/-- Source `apply_pii_policy(df)` (lines 126–148) at record level,
parameterised by the three policy lists it reads: encrypt each listed
column present in the record, then hash each listed column present,
then drop each listed column present.  Per-record; no cross-record
state. -/
def apply_pii_policy (key ts nonce : Nat)
    (encryptCols hashCols dropCols : List String) (r : Row) : Row :=
  let r1 := encryptCols.foldl (fun acc name =>
    if name ∈ columnsOf acc then withColumn acc name (encrypt_udf key ts nonce)
    else acc) r
  let r2 := hashCols.foldl (fun acc name =>
    if name ∈ columnsOf acc then withColumn acc name sha2_string
    else acc) r1
  dropCols.foldl (fun acc name =>
    if name ∈ columnsOf acc then acc.filter (fun p => decide (p.1 ≠ name))
    else acc) r2

/-- Source `apply_pii_policy` with the policy lists of the notebook. -/
def apply_pii_policy_bronze (key ts nonce : Nat) (r : Row) : Row :=
  apply_pii_policy key ts nonce ENCRYPT_COLUMNS HASH_COLUMNS DROP_COLUMNS r

/-! ## The SQL views (source lines 216–249) -/

/-- One row of the `customers_bronze` Delta table. -/
structure BronzeRow where
  customer_id : PValue
  full_name : PValue
  email : PValue
  phone : PValue
  national_id : PValue
  city : PValue
deriving DecidableEq, Repr

/-- One row of the `v_customers_clear` view. -/
structure ClearRow where
  customer_id : PValue
  full_name : Option Str
  email : Option Str
  phone : Option Str
  national_id : PValue
  city : PValue
deriving DecidableEq, Repr

/-- One row of the `v_customers_masked` view. -/
structure MaskedRow where
  customer_id : PValue
  full_name_masked : Option Str
  email_masked : Option Str
  phone_masked : Option Str
  national_id : PValue
  city : PValue
deriving DecidableEq, Repr

/-- The redaction marker `'***'` used by the masked view. -/
def maskMarker : Str := ['*', '*', '*']

/-- View `v_customers_clear` (source lines 219–227): decrypt the three
encrypted columns, pass `national_id` and `city` through.  An
`InvalidToken` exception raised inside `decrypt_value` propagates and
aborts the query. -/
def v_customers_clear (key : Nat) (r : BronzeRow) :
    Except DecryptError ClearRow := do
  let fn ← decrypt_one key r.full_name
  let em ← decrypt_one key r.email
  let ph ← decrypt_one key r.phone
  pure { customer_id := r.customer_id, full_name := fn, email := em,
         phone := ph, national_id := r.national_id, city := r.city }

/-- View `v_customers_masked` (source lines 238–249):
`concat(substr(decrypt_value(full_name), 1, 1), '***')`,
`concat('***', substr(decrypt_value(email), -10, 10))`,
`concat('***', substr(decrypt_value(phone), -4, 4))`;
`national_id` and `city` pass through. -/
def v_customers_masked (key : Nat) (r : BronzeRow) :
    Except DecryptError MaskedRow := do
  let fn ← decrypt_one key r.full_name
  let em ← decrypt_one key r.email
  let ph ← decrypt_one key r.phone
  pure { customer_id := r.customer_id,
         full_name_masked := sparkConcat [sparkSubstr fn 1 1, some maskMarker],
         email_masked := sparkConcat [some maskMarker, sparkSubstr em (-10) 10],
         phone_masked := sparkConcat [some maskMarker, sparkSubstr ph (-4) 4],
         national_id := r.national_id, city := r.city }

/-! ## Exactly-once ingestion (source lines 178–193)

Modelled from the spec: the Auto Loader checkpoint and the Delta sink's
transactional commit are external to the repository (the notebook only
configures them via `checkpointLocation` and `outputMode("append")`).
The spec describes the protocol they implement: a durable ledger of
(fileId, fingerprint) entries with a `claimed → committed` lifecycle,
an idempotent store write addressed by (fileId, fingerprint), and the
ordering invariant store-write happens-before ledger-commit. -/

/-- Identity of a source file: (fileId, content fingerprint). -/
abbrev FileKey := String × Nat

/-- Commit status of a ledger entry. -/
inductive CommitStatus where
  | claimed
  | committed
deriving DecidableEq, Repr

/-- State of the ingestion pipeline: the ingest ledger and the
protected store, the latter addressed by (fileId, fingerprint). -/
structure PipeState where
  ledger : List (FileKey × CommitStatus)
  store : List (FileKey × List Row)
deriving DecidableEq, Repr

/-- Value stored under key `fk` in an association list, if any. -/
def lookupKey {α : Type} (l : List (FileKey × α)) (fk : FileKey) : Option α :=
  match l with
  | [] => none
  | p :: rest => if p.1 = fk then some p.2 else lookupKey rest fk

/-- Whether the ledger records `fk` as committed (the exactly-once
admission guard). -/
def isCommitted (st : PipeState) (fk : FileKey) : Bool :=
  lookupKey st.ledger fk = some .committed

/-- Idempotent store write addressed by (fileId, fingerprint): a second
write for the same key is deduplicated. -/
def storeWrite (st : PipeState) (fk : FileKey) (rows : List Row) : PipeState :=
  if (lookupKey st.store fk).isSome then st
  else { st with store := st.store ++ [(fk, rows)] }

/-- Mark `fk` claimed in the ledger (no-op if an entry exists). -/
def ledgerClaim (st : PipeState) (fk : FileKey) : PipeState :=
  if (lookupKey st.ledger fk).isSome then st
  else { st with ledger := (fk, .claimed) :: st.ledger }

/-- Mark `fk` committed in the ledger. -/
def ledgerCommit (st : PipeState) (fk : FileKey) : PipeState :=
  { st with ledger := (fk, .committed) :: st.ledger }

/-- One processing attempt for the file `fk` with records `records`:
skip if already committed; otherwise claim, transform every record with
`apply_pii_policy`, write the protected batch to the store (idempotent,
addressed by `fk`), and commit the ledger entry — unless
`crashBeforeCommit` interrupts between the store write and the ledger
commit. -/
def processAttempt (key ts nonce : Nat) (st : PipeState) (fk : FileKey)
    (records : List Row) (crashBeforeCommit : Bool) : PipeState :=
  if isCommitted st fk then st
  else
    let st1 := ledgerClaim st fk
    let st2 := storeWrite st1 fk
      (records.map (apply_pii_policy_bronze key ts nonce))
    if crashBeforeCommit then st2 else ledgerCommit st2 fk

/-- Number of copies of file `fk`'s batch present in the store. -/
def storeCopies (st : PipeState) (fk : FileKey) : Nat :=
  (st.store.filter (fun p => decide (p.1 = fk))).length

/-- Value of column `c` in a record, if present (row-level view of
selecting a column of a DataFrame). -/
def lookupCol (r : Row) (c : String) : Option PValue :=
  match r with
  | [] => none
  | p :: rest => if p.1 = c then some p.2 else lookupCol rest c

/-! ## Lemmas about the Spark string functions -/

/-- Spark `substr(s, 1, 1)` is the first character (clamped on empty). -/
theorem substringSQL_head (cs : Str) : substringSQL cs 1 1 = cs.take 1 := by
  rcases cs with _ | ⟨c, rest⟩
  · simp [substringSQL]
  · simp [substringSQL]

/-- Spark `substr(s, -k, k)` for `0 < k` is the last `k` characters,
clamped to the whole string when it is shorter than `k`. -/
theorem substringSQL_last (cs : Str) (k : Nat) (hk : 0 < k) :
    substringSQL cs (-(k : Int)) k = cs.drop (cs.length - k) := by
  simp only [substringSQL]
  have hpos : ¬((-(k : Int)) > 0) := by omega
  have hneg : (-(k : Int)) < 0 := by omega
  rw [if_neg hpos, if_pos hneg]
  have hguard : ¬((cs.length : Int) + -(k : Int) + k ≤ (cs.length : Int) + -(k : Int)
      ∨ (cs.length : Int) ≤ (cs.length : Int) + -(k : Int)) := by omega
  rw [if_neg hguard]
  have h1 : ((cs.length : Int) + -(k : Int) + k).toNat = cs.length := by omega
  have h2 : ((cs.length : Int) + -(k : Int)).toNat = cs.length - k := by omega
  rw [h1, h2, List.take_length]

/-! ## Claim C2: encryption round-trip -/

/-- C2: for every string `s` (including the empty string) and every key,
`decrypt_value` applied to the output of `encrypt_value` under the same
key returns exactly the original string. -/
theorem C2_round_trip (s : Str) (key ts nonce : Nat) :
    decrypt_value key [(encrypt_value key ts nonce (some s)).getD .null]
      = .ok [some s] := by
  have h1 : decrypt_one key (.tok (fernetEncrypt key ts nonce s))
      = .ok (some s) := by
    simp [decrypt_one, fernetDecrypt, fernetEncrypt]
  show decrypt_value key [.tok (fernetEncrypt key ts nonce s)] = .ok [some s]
  unfold decrypt_value
  rw [List.mapM_cons, h1]
  rfl

/-! ## Claim C5: null propagation -/

/-- C5: `encrypt(null) = null`, `decrypt(null) = null`,
`hash(null) = null` (and distinct from hashing the literal string
`"null"`), and masking a `null` yields `null` for every keep-front and
keep-back argument. -/
theorem C5_null_propagation (key ts nonce : Nat) (pos len : Int) :
    encrypt_value key ts nonce none = none ∧
    decrypt_one key .null = .ok none ∧
    sha2_string .null = .null ∧
    sha2_string .null ≠ .s (bytesHex (sha256 (utf8Encode ['n', 'u', 'l', 'l']))) ∧
    sparkConcat [sparkSubstr none pos len, some maskMarker] = none ∧
    sparkConcat [some maskMarker, sparkSubstr none pos len] = none := by
  refine ⟨rfl, rfl, rfl, ?_, rfl, rfl⟩
  simp [sha2_string, renderString]

/-! ## Claim C4: behaviour of the clear projection on a corrupt token

The source `decrypt_value` has no `try`/`except`: the `InvalidToken`
exception raised by `FERNET.decrypt` on a corrupt token propagates out
of the pandas UDF and aborts the whole batch, rather than yielding a
field-level null marker. -/

/-- C4 fails on the code: a batch holding one corrupt token (its tag
key `1` does not match the decryption key `0`) and one valid token
yields a single batch-level `DecryptionFailed`, not a per-field marker
— the valid field's value is lost too. -/
theorem C4_counterexample :
    decrypt_value 0 [.tok ⟨128, 0, 0, 1, ['x'], 1⟩,
        .tok (fernetEncrypt 0 0 0 ['y'])]
      = .error .decryptionFailed := by
  rfl

/-- C4 as amended: whenever any stored value in the batch is a corrupt
or malformed token, `decrypt_value` fails the whole batch with
`DecryptionFailed` (the exception propagates; no per-field isolation
and no partially-decrypted data is returned). -/
theorem C4_amended_batch_abort (key : Nat) (series : List PValue)
    (v : PValue) (hv : v ∈ series)
    (he : decrypt_one key v = .error .decryptionFailed) :
    decrypt_value key series = .error .decryptionFailed := by
  induction series with
  | nil => cases hv
  | cons x xs ih =>
      unfold decrypt_value
      rw [List.mapM_cons]
      rcases List.mem_cons.mp hv with rfl | hv'
      · rw [he]; rfl
      · cases hx : decrypt_one key x with
        | ok a =>
            have h2 := ih hv'
            unfold decrypt_value at h2
            show (xs.mapM (decrypt_one key)) >>= (fun ys => pure (a :: ys))
              = Except.error .decryptionFailed
            rw [h2]
            rfl
        | error e =>
            cases e
            rfl

/-- Witness for the amended C4 at a concrete corrupt batch. -/
theorem C4_amended_batch_abort_witness :
    (PValue.tok ⟨128, 0, 0, 1, ['x'], 1⟩ ∈
      ([.tok ⟨128, 0, 0, 1, ['x'], 1⟩,
        .tok (fernetEncrypt 0 2 3 ['y'])] : List PValue)) ∧
    decrypt_value 0 [.tok ⟨128, 0, 0, 1, ['x'], 1⟩,
        .tok (fernetEncrypt 0 2 3 ['y'])]
      = .error .decryptionFailed :=
  ⟨List.mem_cons_self _ _,
   C4_amended_batch_abort 0
     [.tok ⟨128, 0, 0, 1, ['x'], 1⟩, .tok (fernetEncrypt 0 2 3 ['y'])]
     (.tok ⟨128, 0, 0, 1, ['x'], 1⟩) (List.mem_cons_self _ _) rfl⟩

/-! ## Claim C9: key-version addressing

A Fernet token's first field is the fixed token-format version byte
`0x80`, not a key version; the source builds a single `FERNET` object
from the one hard-coded `ENCRYPTION_KEY` (line 93) and `decrypt_value`
always uses it — nothing in the token selects key material. -/

/-- C9 fails on the code: after rotating to key `1`, a token encrypted
under the older key `0` does not remain decryptable — decryption does
not select the key from anything embedded in the token. -/
theorem C9_counterexample :
    decrypt_one 1 (.tok (fernetEncrypt 0 5 7 ['x'])) =
      .error .decryptionFailed := by
  rfl

/-- C9 as amended: tokens embed only the fixed Fernet format version
`0x80` and a timestamp; decryption always uses the single configured
key, so a token decrypts exactly under the key that produced it and
fails with `DecryptionFailed` under any other key. -/
theorem C9_amended_single_key (key key2 ts nonce : Nat) (s : Str)
    (hne : key ≠ key2) :
    (fernetEncrypt key ts nonce s).version = 128 ∧
    decrypt_one key (.tok (fernetEncrypt key ts nonce s)) = .ok (some s) ∧
    decrypt_one key2 (.tok (fernetEncrypt key ts nonce s))
      = .error .decryptionFailed := by
  refine ⟨rfl, ?_, ?_⟩
  · simp [decrypt_one, fernetDecrypt, fernetEncrypt]
  · simp [decrypt_one, fernetDecrypt, fernetEncrypt, hne]

/-- Witness for the amended C9 at concrete keys `0 ≠ 1`. -/
theorem C9_amended_single_key_witness :
    (0 : Nat) ≠ 1 ∧
    ((fernetEncrypt 0 5 7 ['x']).version = 128 ∧
     decrypt_one 0 (.tok (fernetEncrypt 0 5 7 ['x'])) = .ok (some ['x']) ∧
     decrypt_one 1 (.tok (fernetEncrypt 0 5 7 ['x']))
       = .error .decryptionFailed) :=
  ⟨by decide, C9_amended_single_key 0 1 5 7 ['x'] (by decide)⟩

/-! ## Claim C6: the masked projection rule -/

/-- C6: for every stored row whose three encrypted columns decrypt to
non-null strings, the masked projection shows the first character of
the decrypted `full_name` followed by the `'***'` marker, the marker
followed by the last 10 characters of the decrypted `email`, the
marker followed by the last 4 characters of the decrypted `phone`, and
exposes the hash-policy column `national_id` and the pass-through
columns `customer_id` and `city` unchanged. -/
theorem C6_masked_projection (key : Nat) (r : BronzeRow)
    (name email phone : Str)
    (hn : decrypt_one key r.full_name = .ok (some name))
    (he : decrypt_one key r.email = .ok (some email))
    (hp : decrypt_one key r.phone = .ok (some phone)) :
    v_customers_masked key r = .ok
      { customer_id := r.customer_id,
        full_name_masked := some (name.take 1 ++ maskMarker),
        email_masked := some (maskMarker ++ email.drop (email.length - 10)),
        phone_masked := some (maskMarker ++ phone.drop (phone.length - 4)),
        national_id := r.national_id, city := r.city } := by
  have e1 : sparkConcat [sparkSubstr (some name) 1 1, some maskMarker]
      = some (name.take 1 ++ maskMarker) := by
    simp [sparkConcat, sparkSubstr, substringSQL_head]
  have h10 : substringSQL email (-10) 10 = email.drop (email.length - 10) :=
    substringSQL_last email 10 (by norm_num)
  have h4 : substringSQL phone (-4) 4 = phone.drop (phone.length - 4) :=
    substringSQL_last phone 4 (by norm_num)
  have e2 : sparkConcat [some maskMarker, sparkSubstr (some email) (-10) 10]
      = some (maskMarker ++ email.drop (email.length - 10)) := by
    simp [sparkConcat, sparkSubstr, h10]
  have e3 : sparkConcat [some maskMarker, sparkSubstr (some phone) (-4) 4]
      = some (maskMarker ++ phone.drop (phone.length - 4)) := by
    simp [sparkConcat, sparkSubstr, h4]
  unfold v_customers_masked
  rw [hn, he, hp]
  show Except.ok
      ({ customer_id := r.customer_id,
         full_name_masked :=
           sparkConcat [sparkSubstr (some name) 1 1, some maskMarker],
         email_masked :=
           sparkConcat [some maskMarker, sparkSubstr (some email) (-10) 10],
         phone_masked :=
           sparkConcat [some maskMarker, sparkSubstr (some phone) (-4) 4],
         national_id := r.national_id, city := r.city } : MaskedRow) = _
  rw [e1, e2, e3]

/-- Witness for C6 on the row holding `"Alice Smith"`,
`"alice@x.com"`, `"555-1234"`: the masked projection yields
`"A***"`, `"***lice@x.com"`, `"***1234"`. -/
theorem C6_masked_projection_witness :
    decrypt_one 0 (PValue.tok (fernetEncrypt 0 0 0
        ['A', 'l', 'i', 'c', 'e', ' ', 'S', 'm', 'i', 't', 'h']))
      = .ok (some ['A', 'l', 'i', 'c', 'e', ' ', 'S', 'm', 'i', 't', 'h']) ∧
    decrypt_one 0 (PValue.tok (fernetEncrypt 0 0 0
        ['a', 'l', 'i', 'c', 'e', '@', 'x', '.', 'c', 'o', 'm']))
      = .ok (some ['a', 'l', 'i', 'c', 'e', '@', 'x', '.', 'c', 'o', 'm']) ∧
    decrypt_one 0 (PValue.tok (fernetEncrypt 0 0 0
        ['5', '5', '5', '-', '1', '2', '3', '4']))
      = .ok (some ['5', '5', '5', '-', '1', '2', '3', '4']) ∧
    v_customers_masked 0
      { customer_id := .int 1,
        full_name := .tok (fernetEncrypt 0 0 0
          ['A', 'l', 'i', 'c', 'e', ' ', 'S', 'm', 'i', 't', 'h']),
        email := .tok (fernetEncrypt 0 0 0
          ['a', 'l', 'i', 'c', 'e', '@', 'x', '.', 'c', 'o', 'm']),
        phone := .tok (fernetEncrypt 0 0 0
          ['5', '5', '5', '-', '1', '2', '3', '4']),
        national_id := .s ['h'], city := .s ['M'] }
      = .ok
      { customer_id := .int 1,
        full_name_masked := some ['A', '*', '*', '*'],
        email_masked :=
          some ['*', '*', '*', 'l', 'i', 'c', 'e', '@', 'x', '.', 'c', 'o', 'm'],
        phone_masked := some ['*', '*', '*', '1', '2', '3', '4'],
        national_id := .s ['h'], city := .s ['M'] } :=
  ⟨rfl, rfl, rfl,
   C6_masked_projection 0
     { customer_id := .int 1,
       full_name := .tok (fernetEncrypt 0 0 0
         ['A', 'l', 'i', 'c', 'e', ' ', 'S', 'm', 'i', 't', 'h']),
       email := .tok (fernetEncrypt 0 0 0
         ['a', 'l', 'i', 'c', 'e', '@', 'x', '.', 'c', 'o', 'm']),
       phone := .tok (fernetEncrypt 0 0 0
         ['5', '5', '5', '-', '1', '2', '3', '4']),
       national_id := .s ['h'], city := .s ['M'] }
     ['A', 'l', 'i', 'c', 'e', ' ', 'S', 'm', 'i', 't', 'h']
     ['a', 'l', 'i', 'c', 'e', '@', 'x', '.', 'c', 'o', 'm']
     ['5', '5', '5', '-', '1', '2', '3', '4'] rfl rfl rfl⟩

/-! ## Claim C7: masking and short inputs

Because `substr(s, -k, k)` is clamped, a decrypted value no longer
than `k` characters is shown in full after the marker: the masked
output then reveals the complete original value. -/

/-- C7 fails on the code: for the 5-character decrypted email
`"a@b.c"` the masked projection emits `"***a@b.c"` — the marker
followed by the complete original value (likewise the 4-character
phone `"1234"` is shown in full). -/
theorem C7_counterexample :
    v_customers_masked 0
      { customer_id := .int 1,
        full_name := .tok (fernetEncrypt 0 0 0 ['B', 'o', 'b']),
        email := .tok (fernetEncrypt 0 0 0 ['a', '@', 'b', '.', 'c']),
        phone := .tok (fernetEncrypt 0 0 0 ['1', '2', '3', '4']),
        national_id := .s ['h'], city := .s ['M'] }
      = .ok
      { customer_id := .int 1,
        full_name_masked := some ['B', '*', '*', '*'],
        email_masked := some ['*', '*', '*', 'a', '@', 'b', '.', 'c'],
        phone_masked := some ['*', '*', '*', '1', '2', '3', '4'],
        national_id := .s ['h'], city := .s ['M'] } := by
  rfl

/-- C7 as amended: the masked output is the marker plus the last
`min k (length)` characters of the value (`k = 10` for email, `4` for
phone) and the marker plus the first `min 1 (length)` character for
the name; inputs shorter than the keep-length are clamped to the full
available characters, so a value of length at most `k` is revealed
completely after the marker. -/
theorem C7_amended_mask_bounds (cs : Str) (k : Nat) (hk : 0 < k) :
    sparkConcat [some maskMarker, sparkSubstr (some cs) (-(k : Int)) k]
      = some (maskMarker ++ cs.drop (cs.length - k)) ∧
    (cs.drop (cs.length - k)).length = min k cs.length ∧
    sparkConcat [sparkSubstr (some cs) 1 1, some maskMarker]
      = some (cs.take 1 ++ maskMarker) ∧
    (cs.take 1).length = min 1 cs.length := by
  refine ⟨?_, ?_, ?_, ?_⟩
  · simp [sparkConcat, sparkSubstr, substringSQL_last cs k hk]
  · simp [List.length_drop]
    omega
  · simp [sparkConcat, sparkSubstr, substringSQL_head]
  · simp [List.length_take]

/-- Witness for the amended C7 at the 5-character email `"a@b.c"`
with keep-length `10`: the complete value follows the marker. -/
theorem C7_amended_mask_bounds_witness :
    0 < 10 ∧
    (sparkConcat [some maskMarker,
        sparkSubstr (some ['a', '@', 'b', '.', 'c']) (-(10 : Int)) 10]
      = some ['*', '*', '*', 'a', '@', 'b', '.', 'c'] ∧
    ((['a', '@', 'b', '.', 'c'] : Str).drop (5 - 10)).length = 5 ∧
    sparkConcat [sparkSubstr (some ['a', '@', 'b', '.', 'c']) 1 1,
        some maskMarker]
      = some ['a', '*', '*', '*'] ∧
    ((['a', '@', 'b', '.', 'c'] : Str).take 1).length = 1) :=
  ⟨by decide, C7_amended_mask_bounds ['a', '@', 'b', '.', 'c'] 10 (by decide)⟩

/-! ## Lemmas about `apply_pii_policy` -/

/-- Replacing a column's value in place does not change the column
names or their order. -/
theorem columnsOf_withColumn (r : Row) (name : String) (f : PValue → PValue) :
    columnsOf (withColumn r name f) = columnsOf r := by
  unfold columnsOf withColumn
  rw [List.map_map]
  apply List.map_congr_left
  intro p _
  by_cases h : p.1 = name <;> simp [h]

/-- Replacing column `name` leaves every other column's value alone. -/
theorem lookupCol_withColumn_ne (r : Row) (name c : String)
    (f : PValue → PValue) (hc : c ≠ name) :
    lookupCol (withColumn r name f) c = lookupCol r c := by
  induction r with
  | nil => rfl
  | cons p rest ih =>
      by_cases hpn : p.1 = name
      · have hpc : p.1 ≠ c := fun h => hc (h.symm.trans hpn)
        show lookupCol
          ((if p.1 = name then (p.1, f p.2) else p) :: withColumn rest name f)
          c = _
        rw [if_pos hpn]
        show (if p.1 = c then some (f p.2)
              else lookupCol (withColumn rest name f) c)
            = lookupCol (p :: rest) c
        rw [if_neg hpc]
        show _ = (if p.1 = c then some p.2 else lookupCol rest c)
        rw [if_neg hpc]
        exact ih
      · show lookupCol
          ((if p.1 = name then (p.1, f p.2) else p) :: withColumn rest name f)
          c = _
        rw [if_neg hpn]
        show (if p.1 = c then some p.2
              else lookupCol (withColumn rest name f) c)
            = lookupCol (p :: rest) c
        rw [ih]
        rfl

/-- A fold of guarded `withColumn` steps over a list of column names
preserves the column names and their order. -/
theorem columnsOf_foldl_withColumn (cols : List String)
    (f : PValue → PValue) (r : Row) :
    columnsOf (cols.foldl (fun acc name =>
        if name ∈ columnsOf acc then withColumn acc name f else acc) r)
      = columnsOf r := by
  induction cols generalizing r with
  | nil => rfl
  | cons n ns ih =>
      rw [List.foldl_cons]
      rw [ih]
      split_ifs with h
      · exact columnsOf_withColumn r n f
      · rfl

/-- A fold of guarded `withColumn` steps over a list of column names
leaves every column outside that list untouched. -/
theorem lookupCol_foldl_withColumn (cols : List String)
    (f : PValue → PValue) (r : Row) (c : String) (hc : c ∉ cols) :
    lookupCol (cols.foldl (fun acc name =>
        if name ∈ columnsOf acc then withColumn acc name f else acc) r) c
      = lookupCol r c := by
  induction cols generalizing r with
  | nil => rfl
  | cons n ns ih =>
      have hcn : c ≠ n := fun h => hc (h ▸ List.mem_cons_self n ns)
      have hcns : c ∉ ns := fun h => hc (List.mem_cons_of_mem n h)
      rw [List.foldl_cons, ih _ hcns]
      split_ifs with h
      · exact lookupCol_withColumn_ne r n c f hcn
      · rfl

/-- Dropping one column (with the source's presence guard) is exactly
filtering out that column. -/
theorem dropStep_eq_filter (r : Row) (n : String) :
    (if n ∈ columnsOf r then r.filter (fun p => decide (p.1 ≠ n)) else r)
      = r.filter (fun p => decide (p.1 ≠ n)) := by
  split_ifs with h
  · rfl
  · symm
    apply List.filter_eq_self.mpr
    intro p hp
    simp only [decide_eq_true_eq]
    intro hpn
    exact h (hpn ▸ List.mem_map_of_mem Prod.fst hp)

/-- The drop phase of `apply_pii_policy` filters out exactly the
columns named in the drop list. -/
theorem foldl_drop_eq_filter (cols : List String) (r : Row) :
    cols.foldl (fun acc name =>
        if name ∈ columnsOf acc then acc.filter (fun p => decide (p.1 ≠ name))
        else acc) r
      = r.filter (fun p => decide (p.1 ∉ cols)) := by
  induction cols generalizing r with
  | nil =>
      simp
  | cons n ns ih =>
      rw [List.foldl_cons, dropStep_eq_filter, ih, List.filter_filter]
      apply List.filter_congr
      intro p _
      by_cases h1 : p.1 = n <;> by_cases h2 : p.1 ∈ ns <;>
        simp [h1, h2]

/-- Filtering with a predicate that keeps every entry named `c` does
not change the value found for `c`. -/
theorem lookupCol_filter_keep (r : Row) (pred : String × PValue → Bool)
    (c : String) (hkeep : ∀ p : String × PValue, p.1 = c → pred p = true) :
    lookupCol (r.filter pred) c = lookupCol r c := by
  induction r with
  | nil => rfl
  | cons p rest ih =>
      by_cases hpc : p.1 = c
      · rw [List.filter_cons, hkeep p hpc]
        simp only [if_pos trivial]
        show (if p.1 = c then some p.2 else lookupCol (rest.filter pred) c)
            = (if p.1 = c then some p.2 else lookupCol rest c)
        rw [if_pos hpc, if_pos hpc]
      · rw [List.filter_cons]
        cases hp : pred p
        · simp only [Bool.false_eq_true, if_false]
          rw [ih]
          show _ = (if p.1 = c then some p.2 else lookupCol rest c)
          rw [if_neg hpc]
        · simp only [if_true]
          show (if p.1 = c then some p.2 else lookupCol (rest.filter pred) c)
              = (if p.1 = c then some p.2 else lookupCol rest c)
          rw [if_neg hpc, if_neg hpc, ih]

/-- Column names commute with filtering by a name predicate. -/
theorem columnsOf_filter (r : Row) (q : String → Bool) :
    columnsOf (r.filter (fun p => q p.1)) = (columnsOf r).filter q := by
  induction r with
  | nil => rfl
  | cons p rest ih =>
      rw [List.filter_cons]
      cases hp : q p.1
      · simp only [Bool.false_eq_true, if_false]
        show columnsOf (rest.filter (fun p => q p.1))
            = (p.1 :: columnsOf rest).filter q
        rw [List.filter_cons, hp]
        simpa using ih
      · simp only [if_true]
        show p.1 :: columnsOf (rest.filter (fun p => q p.1))
            = (p.1 :: columnsOf rest).filter q
        rw [List.filter_cons, hp]
        simp only [if_true]
        rw [ih]

/-! ## Claim C8: frame property of policy application -/

/-- C8: every column in none of the encrypt/hash/drop lists keeps its
exact input value under `apply_pii_policy`, and the output column
order is the input order with only the dropped columns removed. -/
theorem C8_frame (key ts nonce : Nat) (e h d : List String) (r : Row)
    (c : String) (hce : c ∉ e) (hch : c ∉ h) (hcd : c ∉ d) :
    lookupCol (apply_pii_policy key ts nonce e h d r) c = lookupCol r c ∧
    columnsOf (apply_pii_policy key ts nonce e h d r)
      = (columnsOf r).filter (fun n => decide (n ∉ d)) := by
  simp only [apply_pii_policy]
  rw [foldl_drop_eq_filter]
  constructor
  · rw [lookupCol_filter_keep _ _ c
      (fun p hp => by simp only [hp, decide_eq_true_eq]; exact hcd)]
    rw [lookupCol_foldl_withColumn _ _ _ _ hch,
      lookupCol_foldl_withColumn _ _ _ _ hce]
  · rw [columnsOf_filter _ (fun n => decide (n ∉ d))]
    rw [columnsOf_foldl_withColumn, columnsOf_foldl_withColumn]

/-- Witness for C8: with the notebook policy, the pass-through column
`city` of a two-column record survives with its exact value and the
column order is unchanged (nothing is dropped). -/
theorem C8_frame_witness :
    ("city" ∉ ENCRYPT_COLUMNS ∧ "city" ∉ HASH_COLUMNS ∧
     "city" ∉ DROP_COLUMNS) ∧
    (lookupCol (apply_pii_policy 0 0 0 ENCRYPT_COLUMNS HASH_COLUMNS
        DROP_COLUMNS [("customer_id", .int 1), ("city", .s ['M'])]) "city"
      = lookupCol [("customer_id", .int 1), ("city", .s ['M'])] "city" ∧
     columnsOf (apply_pii_policy 0 0 0 ENCRYPT_COLUMNS HASH_COLUMNS
        DROP_COLUMNS [("customer_id", .int 1), ("city", .s ['M'])])
      = (columnsOf [("customer_id", .int 1), ("city", .s ['M'])]).filter
          (fun n => decide (n ∉ DROP_COLUMNS))) :=
  ⟨⟨by decide, by decide, by decide⟩,
   C8_frame 0 0 0 ENCRYPT_COLUMNS HASH_COLUMNS DROP_COLUMNS
     [("customer_id", .int 1), ("city", .s ['M'])] "city"
     (by decide) (by decide) (by decide)⟩

/-! ## Lemmas about the hex digest -/

/-- Hex rendering doubles the length. -/
theorem bytesHex_length (bs : List Nat) :
    (bytesHex bs).length = 2 * bs.length := by
  induction bs with
  | nil => rfl
  | cons b rest ih =>
      show (byteHex b ++ bytesHex rest).length = 2 * (b :: rest).length
      rw [List.length_append, ih]
      simp [byteHex]
      omega

/-- A SHA-256 digest is 32 bytes. -/
theorem sha256_length (msg : List Nat) : (sha256 msg).length = 32 := by
  simp [sha256, word32Bytes]

/-- The rendered `sha2(·, 256)` digest is 64 characters. -/
theorem sha2_digest_length (cs : Str) :
    (bytesHex (sha256 (utf8Encode cs))).length = 64 := by
  rw [bytesHex_length, sha256_length]

/-- Every character `hexChar` emits is a lowercase hex digit. -/
theorem hexChar_mem (n : Nat) : hexChar n ∈ hexDigitsTable := by
  have h : n % 16 < hexDigitsTable.length := by
    simp only [hexDigitsTable, List.length_map, List.length_range]
    omega
  unfold hexChar
  rw [List.getD_eq_getElem _ _ h]
  exact List.getElem_mem h

/-- Every character of a hex rendering is a lowercase hex digit. -/
theorem bytesHex_mem (bs : List Nat) (c : Char) (hc : c ∈ bytesHex bs) :
    c ∈ hexDigitsTable := by
  induction bs with
  | nil => cases hc
  | cons b rest ih =>
      rw [show bytesHex (b :: rest) = byteHex b ++ bytesHex rest from rfl]
        at hc
      rcases List.mem_append.mp hc with h1 | h2
      · simp only [byteHex, List.mem_cons, List.not_mem_nil, or_false]
          at h1
        rcases h1 with rfl | rfl
        · exact hexChar_mem _
        · exact hexChar_mem _
      · exact ih h2

/-! ## Claim C3: policy validation

The source has no validation step at all: `apply_pii_policy` simply
applies the encrypt loop, then the hash loop, then the drop loop.  A
column listed in both `ENCRYPT_COLUMNS` and `HASH_COLUMNS` is first
encrypted and then its token text is hashed — silently composed, never
rejected. -/

/-- C3 fails on the code: with `email` in both the encrypt and the
hash lists, the record is processed (encrypt, then hash of the token
text) — no `OverlappingPolicy` rejection exists, and the stored value
is a digest, not the untouched input. -/
theorem C3_counterexample :
    apply_pii_policy 0 0 0 ["email"] ["email"] [] [("email", PValue.s ['x'])]
      = [("email", sha2_string (encrypt_udf 0 0 0 (PValue.s ['x'])))] ∧
    sha2_string (encrypt_udf 0 0 0 (PValue.s ['x'])) ≠ PValue.s ['x'] := by
  refine ⟨rfl, ?_⟩
  intro hEq
  rw [show sha2_string (encrypt_udf 0 0 0 (PValue.s ['x']))
      = PValue.s (bytesHex (sha256 (utf8Encode
          (tokenText (fernetEncrypt 0 0 0 ['x']))))) from rfl] at hEq
  have h := (PValue.s.injEq _ _).mp hEq
  have hlen : (bytesHex (sha256 (utf8Encode
      (tokenText (fernetEncrypt 0 0 0 ['x']))))).length
      = (['x'] : Str).length := by rw [h]
  rw [sha2_digest_length] at hlen
  simp at hlen

/-- C3 as amended: no validation is performed; for a column listed in
both the encrypt and the hash lists, `apply_pii_policy` silently
composes the two actions — the value is encrypted and the resulting
token text is hashed. -/
theorem C3_amended_overlap_composes (key ts nonce : Nat) (c : String)
    (v : PValue) :
    apply_pii_policy key ts nonce [c] [c] [] [(c, v)]
      = [(c, sha2_string (encrypt_udf key ts nonce v))] := by
  simp [apply_pii_policy, columnsOf, withColumn]

/-! ## Claim C10: hashing is over the string cast -/

/-- C10: `sha2` is applied to the string cast of the column value, so
any two values with equal string renderings (e.g. the number `123` and
the string `"123"`) store the identical digest, and every non-null
digest is the 64-character lowercase-hex SHA-256 of that rendering. -/
theorem C10_sha2_rendering (v w : PValue) (cs : Str)
    (hv : renderString v = some cs) (hw : renderString w = some cs) :
    sha2_string v = sha2_string w ∧
    sha2_string v = .s (bytesHex (sha256 (utf8Encode cs))) ∧
    (bytesHex (sha256 (utf8Encode cs))).length = 64 ∧
    ∀ ch ∈ bytesHex (sha256 (utf8Encode cs)), ch ∈ hexDigitsTable := by
  have hv2 : sha2_string v = .s (bytesHex (sha256 (utf8Encode cs))) := by
    unfold sha2_string
    rw [hv]
  have hw2 : sha2_string w = .s (bytesHex (sha256 (utf8Encode cs))) := by
    unfold sha2_string
    rw [hw]
  exact ⟨hv2.trans hw2.symm, hv2, sha2_digest_length cs,
    fun ch hch => bytesHex_mem _ ch hch⟩

/-- Witness for C10 at the number `123` and the string `"123"`. -/
theorem C10_sha2_rendering_witness :
    (renderString (.int 123) = some ['1', '2', '3'] ∧
     renderString (.s ['1', '2', '3']) = some ['1', '2', '3']) ∧
    (sha2_string (.int 123) = sha2_string (.s ['1', '2', '3']) ∧
     sha2_string (.int 123)
       = .s (bytesHex (sha256 (utf8Encode ['1', '2', '3']))) ∧
     (bytesHex (sha256 (utf8Encode ['1', '2', '3']))).length = 64 ∧
     ∀ ch ∈ bytesHex (sha256 (utf8Encode ['1', '2', '3'])),
       ch ∈ hexDigitsTable) :=
  ⟨⟨rfl, rfl⟩, C10_sha2_rendering (.int 123) (.s ['1', '2', '3'])
    ['1', '2', '3'] rfl rfl⟩

/-! ## Lemmas about the ingestion ledger and store -/

/-- Looking up in an appended store first consults the left part. -/
theorem lookupKey_append_of_none {α : Type} (l1 l2 : List (FileKey × α))
    (fk : FileKey) (h : lookupKey l1 fk = none) :
    lookupKey (l1 ++ l2) fk = lookupKey l2 fk := by
  induction l1 with
  | nil => rfl
  | cons p rest ih =>
      by_cases hp : p.1 = fk
      · rw [lookupKey, if_pos hp] at h
        cases h
      · rw [lookupKey, if_neg hp] at h
        show lookupKey (p :: (rest ++ l2)) fk = lookupKey l2 fk
        rw [lookupKey, if_neg hp]
        exact ih h

/-- A key that is absent contributes no entries. -/
theorem filter_key_nil_of_lookupKey_none {α : Type}
    (l : List (FileKey × α)) (fk : FileKey) (h : lookupKey l fk = none) :
    l.filter (fun p => decide (p.1 = fk)) = [] := by
  induction l with
  | nil => rfl
  | cons p rest ih =>
      by_cases hp : p.1 = fk
      · rw [lookupKey, if_pos hp] at h
        cases h
      · rw [lookupKey, if_neg hp] at h
        rw [List.filter_cons, if_neg (by simp [hp])]
        exact ih h

/-! ## Claim C1: exactly-once commit -/

/-- C1: if a not-yet-ingested file is claimed and processed twice —
the first attempt crashing between the store write and the ledger
commit, the second completing — the protected store ends with exactly
one logical copy of that file's policy-protected records, and the
ledger records the file as committed. -/
theorem C1_exactly_once (key ts nonce : Nat) (st : PipeState)
    (fk : FileKey) (records : List Row)
    (hst : lookupKey st.store fk = none)
    (hled : lookupKey st.ledger fk = none) :
    storeCopies
      (processAttempt key ts nonce
        (processAttempt key ts nonce st fk records true) fk records false)
      fk = 1 ∧
    lookupKey
      (processAttempt key ts nonce
        (processAttempt key ts nonce st fk records true) fk records
        false).store fk
      = some (records.map (apply_pii_policy_bronze key ts nonce)) ∧
    isCommitted
      (processAttempt key ts nonce
        (processAttempt key ts nonce st fk records true) fk records false)
      fk = true := by
  have hcom1 : isCommitted st fk = false := by
    simp [isCommitted, hled]
  have h1 : processAttempt key ts nonce st fk records true
      = { ledger := (fk, .claimed) :: st.ledger,
          store := st.store
            ++ [(fk, records.map (apply_pii_policy_bronze key ts nonce))] }
      := by
    unfold processAttempt
    simp [hcom1, ledgerClaim, storeWrite, hled, hst]
  have hap : lookupKey (st.store
      ++ [(fk, records.map (apply_pii_policy_bronze key ts nonce))]) fk
      = some (records.map (apply_pii_policy_bronze key ts nonce)) := by
    rw [lookupKey_append_of_none _ _ _ hst]
    simp [lookupKey]
  have h2 : processAttempt key ts nonce
      (processAttempt key ts nonce st fk records true) fk records false
      = { ledger := (fk, .committed) :: (fk, .claimed) :: st.ledger,
          store := st.store
            ++ [(fk, records.map (apply_pii_policy_bronze key ts nonce))] }
      := by
    rw [h1]
    unfold processAttempt
    simp [isCommitted, lookupKey, ledgerClaim, storeWrite, ledgerCommit, hap]
  rw [h2]
  refine ⟨?_, hap, by simp [isCommitted, lookupKey]⟩
  unfold storeCopies
  simp only []
  rw [List.filter_append, filter_key_nil_of_lookupKey_none _ _ hst]
  simp

/-- Witness for C1 from the empty initial state with one one-column
record. -/
theorem C1_exactly_once_witness :
    (lookupKey (PipeState.mk [] []).store ("f1", 7) = none ∧
     lookupKey (PipeState.mk [] []).ledger ("f1", 7) = none) ∧
    (storeCopies
      (processAttempt 0 0 0
        (processAttempt 0 0 0 ⟨[], []⟩ ("f1", 7)
          [[("city", PValue.s ['M'])]] true) ("f1", 7)
        [[("city", PValue.s ['M'])]] false) ("f1", 7) = 1 ∧
     lookupKey
      (processAttempt 0 0 0
        (processAttempt 0 0 0 ⟨[], []⟩ ("f1", 7)
          [[("city", PValue.s ['M'])]] true) ("f1", 7)
        [[("city", PValue.s ['M'])]] false).store ("f1", 7)
      = some ([[("city", PValue.s ['M'])]].map
          (apply_pii_policy_bronze 0 0 0)) ∧
     isCommitted
      (processAttempt 0 0 0
        (processAttempt 0 0 0 ⟨[], []⟩ ("f1", 7)
          [[("city", PValue.s ['M'])]] true) ("f1", 7)
        [[("city", PValue.s ['M'])]] false) ("f1", 7) = true) :=
  ⟨⟨rfl, rfl⟩,
   C1_exactly_once 0 0 0 ⟨[], []⟩ ("f1", 7) [[("city", PValue.s ['M'])]]
     rfl rfl⟩
